import Mathlib

set_option maxHeartbeats 1000000

/-!
Verification development for the AEO corporate-response PDF extraction
pipeline (`src/extract_pdfs.py`).

Strings are modelled as `List Char`.  Whitespace is modelled by the ASCII
whitespace class (the characters matched by the regex class backslash-s on
ASCII input, and stripped by `str.strip`): space, tab, newline, carriage
return, vertical tab, form feed.

External effects (the HTTP fetch, the PDF parsing library and the file
system) are modelled by an explicit environment of oracles; the pure parts
of the program (classification, normalization, counting, naming, year
derivation, the locator lists and the orchestration of the per-document
loop) are translated directly from the source.
-/

/-- ASCII whitespace as recognised by Python's regex class backslash-s and by
`str.strip` on ASCII input. -/
def isPySpace (c : Char) : Bool :=
  c = ' ' || c = '\t' || c = '\n' || c = '\r' || c = Char.ofNat 11 || c = Char.ofNat 12

/-- One attempted greedy regex match for the tail of the pattern
`\n\s*\n` (the leading newline has already been consumed by the caller):
given the text `rest` following a newline, the regex engine greedily extends
`\s*` through the whitespace prefix of `rest` so that it ends just before the
last newline of that whitespace run.  Returns the text following the final
matched newline, or `none` when the whitespace prefix of `rest` contains no
newline (so the pattern cannot complete here). -/
def nlMatch (rest : List Char) : Option (List Char) :=
  let w := rest.takeWhile isPySpace
  let v := (w.reverse.takeWhile (fun c => c ≠ '\n')).reverse
  if v.length = w.length then none
  else some (v ++ rest.drop w.length)

/-- `re.sub(r'\n\s*\n', '\n\n', text)`: scan left to right; at every newline,
attempt the greedy match for the rest of the pattern; on success emit exactly
one blank line (two newlines) and resume after the matched region. -/
def subNL : List Char → List Char
  | [] => []
  | c :: rest =>
    if c = '\n' then
      match h : nlMatch rest with
      | some rest2 => '\n' :: '\n' :: subNL rest2
      | none => '\n' :: subNL rest
    else c :: subNL rest
termination_by l => l.length
decreasing_by
  · simp only [List.length_cons]
    refine Nat.lt_succ_of_le ?_
    simp only [nlMatch] at h
    split at h
    · exact absurd h (by simp)
    · rw [Option.some.injEq] at h
      subst h
      have h1 : ((rest.takeWhile isPySpace).reverse.takeWhile
          (fun c => decide (c ≠ '\n'))).reverse.length ≤ (rest.takeWhile isPySpace).length := by
        rw [List.length_reverse]
        calc ((rest.takeWhile isPySpace).reverse.takeWhile (fun c => decide (c ≠ '\n'))).length
            ≤ (rest.takeWhile isPySpace).reverse.length := (List.takeWhile_sublist _).length_le
          _ = (rest.takeWhile isPySpace).length := List.length_reverse _
      have h2 : (rest.takeWhile isPySpace).length ≤ rest.length :=
        (List.takeWhile_sublist _).length_le
      simp only [List.length_append, List.length_drop]
      omega
  · simp
  · simp

/-- `re.sub(r' +', ' ', text)`: collapse every maximal run of space
characters to a single space. -/
def subSp : List Char → List Char
  | [] => []
  | c :: rest =>
    if c = ' ' then ' ' :: subSp (rest.dropWhile (fun d => d = ' '))
    else c :: subSp rest
termination_by l => l.length
decreasing_by
  · simp only [List.length_cons]
    exact Nat.lt_succ_of_le (List.dropWhile_sublist _).length_le
  · simp

/-- `str.strip()`: remove leading and trailing whitespace. -/
def pyStrip (l : List Char) : List Char :=
  ((l.dropWhile isPySpace).reverse.dropWhile isPySpace).reverse

/-- `AEOGitHubPDFExtractor.clean_text`: collapse blank-line runs, collapse
space runs, then strip. -/
def clean_text (l : List Char) : List Char :=
  pyStrip (subSp (subNL l))

/-- The whitespace prefix contains no newline. -/
def noNLinWS (l : List Char) : Prop := '\n' ∉ l.takeWhile isPySpace

/-- Condition on the text following a newline under which one `subNL` scan
step leaves that position unchanged: either no further match starts here, or
the match is exactly an adjacent newline pair. -/
def nlCond (t : List Char) : Prop :=
  noNLinWS t ∨ ∃ r, t = '\n' :: r ∧ noNLinWS r

/-- Fixed points of the blank-line collapsing scan: after every newline the
`nlCond` condition holds. -/
def goodNL : List Char → Prop
  | [] => True
  | c :: t => (c = '\n' → nlCond t) ∧ goodNL t

/-- No two adjacent space characters. -/
def noDS : List Char → Prop
  | [] => True
  | [_] => True
  | c :: d :: t => ¬(c = ' ' ∧ d = ' ') ∧ noDS (d :: t)

/-- Python `str.lower()` (ASCII behaviour). -/
def pyLower (l : List Char) : List Char := l.map Char.toLower

/-- Python's substring test `sub in s`. -/
def pyIn (sub l : List Char) : Bool := decide (List.IsInfix sub l)

/-- `AEOGitHubPDFExtractor.classify_document_type`: lowercase the filename,
then test substrings in a fixed priority order. -/
def classify_document_type (filename : List Char) : String :=
  let fl := pyLower filename
  if pyIn "impact".toList fl || pyIn "sustainability".toList fl
      || pyIn "esg".toList fl then "Impact Report"
  else if pyIn "assurance".toList fl then "Assurance Statement"
  else if pyIn "proxy".toList fl then "Proxy Statement"
  else if pyIn "10k".toList fl || pyIn "10-k".toList fl then "Form 10-K"
  else if pyIn "carbon".toList fl then "Carbon Disclosure"
  else "Other"

/-- Case-insensitive containment of a (lowercase) marker string in a
filename, the condition the specification's classifier rules speak about. -/
def containsCI (pat : String) (f : List Char) : Prop :=
  List.IsInfix pat.toList (pyLower f)

instance (pat : String) (f : List Char) : Decidable (containsCI pat f) :=
  List.decidableInfix pat.toList (pyLower f)

/-- Python `str.split()` with no argument: split on whitespace runs,
discarding empty pieces. -/
def pySplit : List Char → List (List Char)
  | [] => []
  | c :: rest =>
    if isPySpace c then pySplit rest
    else (c :: rest.takeWhile (fun d => !isPySpace d)) ::
      pySplit (rest.dropWhile (fun d => !isPySpace d))
termination_by l => l.length
decreasing_by
  · simp
  · simp only [List.length_cons]
    exact Nat.lt_succ_of_le (List.dropWhile_sublist _).length_le

/-- Number of maximal non-whitespace runs: count the positions where a
non-whitespace character follows either the start of the string or a
whitespace character.  `prevWs` records whether the previous character (or
the start of the string) counts as whitespace. -/
def countRunsAux (prevWs : Bool) : List Char → Nat
  | [] => 0
  | c :: rest =>
    (if prevWs && !isPySpace c then 1 else 0) + countRunsAux (isPySpace c) rest

/-- Number of maximal non-whitespace runs in a string. -/
def countRuns (l : List Char) : Nat := countRunsAux true l

/-- A document descriptor as built by the locator strategies
(the per-file dict with keys year, filename, path, doc_type). -/
structure PdfInfo where
  year : Nat
  filename : List Char
  path : List Char
  doc_type : String
deriving DecidableEq

/-- Per-page record produced by the extractor. -/
structure PageData where
  page_number : Nat
  text : List Char
  char_count : Nat
  word_count : Nat
deriving DecidableEq

/-- The dict returned by `extract_text_from_pdf` on success. -/
structure ExtractionResult where
  total_pages : Nat
  pages : List PageData
deriving DecidableEq

/-- One entry of `self.document_metadata`. -/
structure MetadataRecord where
  year : Nat
  filename : List Char
  doc_type : String
  total_pages : Nat
  github_path : List Char
deriving DecidableEq

/-- One entry of `self.extracted_data` (one row of the master dataset). -/
structure DatasetRow where
  year : Nat
  document_type : String
  filename : List Char
  page_number : Nat
  text : List Char
  word_count : Nat
  char_count : Nat
deriving DecidableEq

/-- The run-scoped accumulators of the extractor object. -/
structure RunState where
  extracted_data : List DatasetRow
  document_metadata : List MetadataRecord
deriving DecidableEq

/-- An opened PDF document, modelled as the sequence of per-page
`page.get_text()` outcomes: either the raw extracted text of the page or the
exception raised while extracting it. -/
abbrev PdfStream : Type := List (Except String (List Char))

/-- The page loop of `extract_text_from_pdf`: pages are visited in document
order; the first page whose text extraction raises aborts the loop with that
error; otherwise each page contributes a record whose text is the
normalized text and whose counts are computed from it. -/
def runPages : List (Except String (List Char)) → Nat → Except String (List PageData)
  | [], _ => Except.ok []
  | Except.error e :: _, _ => Except.error e
  | Except.ok raw :: rest, n =>
    let t := clean_text raw
    match runPages rest (n + 1) with
    | Except.error e => Except.error e
    | Except.ok ps => Except.ok
        ({ page_number := n, text := t, char_count := t.length,
           word_count := (pySplit t).length } :: ps)

/-- Outcome of one call to `extract_text_from_pdf`: the returned value or
the propagated exception, together with whether `doc.close()` was reached. -/
structure ExtractOutcome where
  result : Except String ExtractionResult
  closed : Bool

/-- `AEOGitHubPDFExtractor.extract_text_from_pdf`, given an opened document.
`doc.close()` stands after the page loop with no enclosing `try/finally`, so
it executes exactly when the loop finishes without raising. -/
def extract_text_from_pdf (stream : PdfStream) : ExtractOutcome :=
  match runPages stream 1 with
  | Except.error e => { result := Except.error e, closed := false }
  | Except.ok ps =>
      { result := Except.ok { total_pages := ps.length, pages := ps }, closed := true }

/-- The character class `[a-zA-Z0-9_-]` of the sanitizing regex. -/
def isSafeChar (c : Char) : Bool :=
  ('a' ≤ c && c ≤ 'z') || ('A' ≤ c && c ≤ 'Z') || ('0' ≤ c && c ≤ '9') || c = '_' || c = '-'

/-- `re.sub(r'[^a-zA-Z0-9_-]', '_', s)`. -/
def sanitizeFilename (l : List Char) : List Char :=
  l.map (fun c => if isSafeChar c then c else '_')

/-- `str.replace('.pdf', '')`: remove every (non-overlapping, left-to-right)
occurrence of the lowercase substring `.pdf`. -/
def removePdf : List Char → List Char
  | [] => []
  | c :: rest =>
    if c = '.' ∧ rest.take 3 = ['p', 'd', 'f'] then removePdf (rest.drop 3)
    else c :: removePdf rest
termination_by l => l.length
decreasing_by
  · simp only [List.length_cons, List.length_drop]
    omega
  · simp

/-- The sanitized stem computed by `save_text_corpus`:
`re.sub(r'[^a-zA-Z0-9_-]', '_', filename.replace('.pdf', ''))`. -/
def safe_filename (filename : List Char) : List Char :=
  sanitizeFilename (removePdf filename)

/-- The corpus file name written by `save_text_corpus`:
`f"{year}_{safe_filename}_fulltext.txt"`. -/
def save_text_corpus_filename (year : Nat) (filename : List Char) : List Char :=
  (toString year).toList ++ '_' :: safe_filename filename ++ "_fulltext.txt".toList

def isAsciiDigit (c : Char) : Bool := '0' ≤ c && c ≤ '9'

def digitVal (c : Char) : Nat := c.toNat - '0'.toNat

/-- `re.search(r'20\d{2}', path)` followed by `int(...)`: scan left to right
for the first position where the four characters `2`, `0`, digit, digit
occur, and return the numeric value of those four characters. -/
def searchYear : List Char → Option Nat
  | [] => none
  | c :: rest =>
    if c = '2' then
      match rest with
      | '0' :: d1 :: d2 :: _ =>
        if isAsciiDigit d1 && isAsciiDigit d2 then
          some (2000 + 10 * digitVal d1 + digitVal d2)
        else searchYear rest
      | _ => searchYear rest
    else searchYear rest

/-- `int(year_match.group()) if year_match else 2024`. -/
def deriveYear (path : List Char) : Nat := (searchYear path).getD 2024

/-- `os.path.basename`: the final path segment. -/
def basename (path : List Char) : List Char :=
  (path.reverse.takeWhile (fun c => c ≠ '/')).reverse

/-- `auto_discover_pdfs`, given the `path` attributes of the `tree` entries
returned by the remote listing: keep paths with a case-insensitive `.pdf`
suffix and build a descriptor for each. -/
def auto_discover_pdfs (tree : List (List Char)) : List PdfInfo :=
  tree.filterMap (fun path =>
    if ".pdf".toList.isSuffixOf (pyLower path) then
      some { year := deriveYear path, filename := basename path, path := path,
             doc_type := classify_document_type (basename path) }
    else none)

/-- The `file_mappings` dict of `define_pdf_files_structure1`, in insertion
order. -/
def file_mappings : List (Nat × List String) :=
  [(2020, ["AEO_2020_Impact_Report.pdf", "AEO_2020_10K.pdf"]),
   (2021, ["AEO_2021_Impact_Report.pdf", "AEO_2021_10K.pdf"]),
   (2022, ["AEO_2022_Impact_Report.pdf", "AEO_2022_10K.pdf"]),
   (2023, ["AEO_2023_Impact_Report.pdf", "AEO_2023_10K.pdf"]),
   (2024, ["AEO_2024_Impact_Report.pdf", "AEO_2024_10K.pdf"])]

/-- `define_pdf_files_structure1`: one descriptor per (year, filename) pair,
with path template `AEO_<year>/<filename>` and classified type. -/
def define_pdf_files_structure1 : List PdfInfo :=
  (file_mappings.map (fun yf =>
    yf.2.map (fun fn =>
      { year := yf.1, filename := fn.toList,
        path := ("AEO_" ++ toString yf.1 ++ "/" ++ fn).toList,
        doc_type := classify_document_type fn.toList : PdfInfo }))).flatten

/-- The effectful context of one run: the outcome of fetching each remote
path (`download_pdf_from_github`, including `response.raise_for_status`),
and the outcome of writing each per-document corpus file
(`save_text_corpus`'s file I/O). -/
structure Env where
  fetch : List Char → Except String PdfStream
  writeCorpus : PdfInfo → ExtractionResult → Except String Unit

/-- The metadata dict appended to `self.document_metadata`. -/
def mkMetadata (info : PdfInfo) (res : ExtractionResult) : MetadataRecord :=
  { year := info.year, filename := info.filename, doc_type := info.doc_type,
    total_pages := res.total_pages, github_path := info.path }

/-- `build_dataset_records`: one flattened row per page. -/
def build_dataset_records (info : PdfInfo) (res : ExtractionResult) : List DatasetRow :=
  res.pages.map (fun p =>
    { year := info.year, document_type := info.doc_type, filename := info.filename,
      page_number := p.page_number, text := p.text, word_count := p.word_count,
      char_count := p.char_count })

/-- The body of the per-document `try/except`: fetch, extract, append
metadata, write the corpus file, append the dataset rows; any exception is
caught and leaves the loop to continue with the accumulators as they were at
the moment the exception was raised. -/
def processDoc (env : Env) (s : RunState) (info : PdfInfo) : RunState :=
  match env.fetch info.path with
  | Except.error _ => s
  | Except.ok stream =>
    match (extract_text_from_pdf stream).result with
    | Except.error _ => s
    | Except.ok res =>
      let s1 : RunState :=
        { s with document_metadata := s.document_metadata ++ [mkMetadata info res] }
      match env.writeCorpus info res with
      | Except.error _ => s1
      | Except.ok _ =>
          { s1 with extracted_data := s1.extracted_data ++ build_dataset_records info res }

/-- The list-selection logic at the top of `extract_all_documents`:
auto-discovery first when enabled, falling back to the structured-by-year
list when it returns an empty list. -/
def selectPdfFiles (autoResult : List PdfInfo) (use_auto_discover : Bool) : List PdfInfo :=
  if use_auto_discover then
    if autoResult.isEmpty then define_pdf_files_structure1 else autoResult
  else define_pdf_files_structure1

/-- The per-document loop of `extract_all_documents` over a chosen file
list, starting from empty accumulators. -/
def runDocuments (env : Env) (files : List PdfInfo) : RunState :=
  files.foldl (processDoc env) { extracted_data := [], document_metadata := [] }

/-- One line-group of the summary report: `year`, document count, total
pages for that year. -/
structure YearSummary where
  year : Nat
  doc_count : Nat
  page_count : Nat
deriving DecidableEq

def insertSortedNat (x : Nat) : List Nat → List Nat
  | [] => [x]
  | y :: r => if x < y then x :: y :: r else if x = y then y :: r else y :: insertSortedNat x r

/-- `sorted(df['year'].unique())`. -/
def sorted_unique (l : List Nat) : List Nat := l.foldr insertSortedNat []

/-- `create_summary_report`: group the metadata records by year.  pandas
builds the frame from the record list; a frame built from an empty list has
no columns at all, so the column access `df['year']` raises `KeyError` —
modelled as the error case. -/
def create_summary_report (meta : List MetadataRecord) : Except String (List YearSummary) :=
  if meta.isEmpty then Except.error "KeyError: year"
  else Except.ok ((sorted_unique (meta.map (fun m => m.year))).map (fun y =>
    let docs := meta.filter (fun m => m.year == y)
    { year := y, doc_count := docs.length,
      page_count := (docs.map (fun m => m.total_pages)).sum }))

/-- `save_outputs`: the CSV and JSON serialisations of the accumulators
succeed for any list (including the empty one); the summary report is
written last and its failure propagates. -/
def save_outputs (s : RunState) : Except String Unit :=
  match create_summary_report s.document_metadata with
  | Except.error e => Except.error e
  | Except.ok _ => Except.ok ()

/-- `extract_all_documents`: choose the file list, run the per-document
loop, then aggregate the outputs.  Returns the final accumulator state and
the outcome of the final aggregation step. -/
def extract_all_documents (env : Env) (autoResult : List PdfInfo)
    (use_auto_discover : Bool) : RunState × Except String Unit :=
  let s := runDocuments env (selectPdfFiles autoResult use_auto_discover)
  (s, save_outputs s)

/-- Whether the four characters `2`, `0`, digit, digit stand at the head. -/
def yearHere (l : List Char) : Bool :=
  match l with
  | c1 :: c2 :: d1 :: d2 :: _ =>
      c1 = '2' && c2 = '0' && isAsciiDigit d1 && isAsciiDigit d2
  | _ => false

/-- Numeric value of the four leading characters `2 0 d1 d2`. -/
def yearValueHere (l : List Char) : Nat :=
  match l with
  | _ :: _ :: d1 :: d2 :: _ => 2000 + 10 * digitVal d1 + digitVal d2
  | _ => 2024

/-- The pattern `20\d\d` occurs at position `i` of `path`. -/
def yearPatternAt (path : List Char) (i : Nat) : Bool := yearHere (path.drop i)

/-- Value of the `20\d\d` occurrence at position `i` of `path`. -/
def yearValueAt (path : List Char) (i : Nat) : Nat := yearValueHere (path.drop i)

/-- The stem as claim C9 describes it: strip the `.pdf` extension when
present, then replace every character outside `[A-Za-z0-9_-]` with `_`. -/
def claimedStem (filename : List Char) : List Char :=
  if ".pdf".toList.isSuffixOf filename then
    sanitizeFilename (filename.take (filename.length - 4))
  else sanitizeFilename filename

/-- A fetch environment in which every download raises, and a document used
by the run-level witnesses. -/
def envFetchFail : Env :=
  { fetch := fun _ => Except.error "ConnectionError",
    writeCorpus := fun _ _ => Except.ok () }

def sampleInfo : PdfInfo :=
  { year := 2020, filename := "AEO_2020_Impact_Report.pdf".toList,
    path := "AEO_2020/AEO_2020_Impact_Report.pdf".toList,
    doc_type := "Impact Report" }

/-- An environment in which fetching succeeds with a one-page document but
the corpus-file write fails. -/
def envWriteFail : Env :=
  { fetch := fun _ => Except.ok [Except.ok "Hello".toList],
    writeCorpus := fun _ _ => Except.error "disk full" }

/-! ## Lemmas and claim theorems -/

theorem drop_length_takeWhile (p : Char → Bool) (l : List Char) :
    l.drop (l.takeWhile p).length = l.dropWhile p := by
  induction l with
  | nil => rfl
  | cons c t ih =>
    by_cases hc : p c
    · simp [List.takeWhile_cons_of_pos hc, List.dropWhile_cons_of_pos hc, ih]
    · simp [List.takeWhile_cons_of_neg hc, List.dropWhile_cons_of_neg hc]

theorem dropWhile_head_not {p : Char → Bool} {l : List Char} {c : Char} {t : List Char}
    (h : l.dropWhile p = c :: t) : p c = false := by
  induction l with
  | nil => simp at h
  | cons a r ih =>
    by_cases ha : p a
    · rw [List.dropWhile_cons_of_pos ha] at h
      exact ih h
    · rw [List.dropWhile_cons_of_neg ha] at h
      cases h
      simpa using ha

theorem dropWhile_dropWhile (p : Char → Bool) (l : List Char) :
    (l.dropWhile p).dropWhile p = l.dropWhile p := by
  induction l with
  | nil => rfl
  | cons c t ih =>
    by_cases hc : p c
    · simp [List.dropWhile_cons_of_pos hc, ih]
    · simp [List.dropWhile_cons_of_neg hc]

theorem takeWhile_dropWhile_nil (p : Char → Bool) (l : List Char) :
    (l.dropWhile p).takeWhile p = [] := by
  induction l with
  | nil => rfl
  | cons c t ih =>
    by_cases hc : p c
    · simp [List.dropWhile_cons_of_pos hc, ih]
    · simp [List.dropWhile_cons_of_neg hc, List.takeWhile_cons_of_neg hc]

theorem noNLinWS_nil : noNLinWS [] := by simp [noNLinWS]

theorem nlMatch_eq_none_iff {rest : List Char} :
    nlMatch rest = none ↔ noNLinWS rest := by
  constructor
  · intro h
    simp only [nlMatch] at h
    split at h
    · next hlen =>
      have hsub : List.Sublist ((rest.takeWhile isPySpace).reverse.takeWhile
          (fun c => decide (c ≠ '\n'))) (rest.takeWhile isPySpace).reverse :=
        List.takeWhile_sublist _
      have heq : ((rest.takeWhile isPySpace).reverse.takeWhile
          (fun c => decide (c ≠ '\n'))) = (rest.takeWhile isPySpace).reverse := by
        apply hsub.eq_of_length
        rw [← List.length_reverse ((rest.takeWhile isPySpace).reverse.takeWhile
          (fun c => decide (c ≠ '\n'))), hlen, List.length_reverse]
      have hall := List.takeWhile_eq_self_iff.mp heq
      intro hmem
      have := hall '\n' (by simpa using hmem)
      simp at this
    · simp at h
  · intro h
    simp only [nlMatch]
    rw [if_pos]
    have hall : ∀ x ∈ (rest.takeWhile isPySpace).reverse, (fun c => decide (c ≠ '\n')) x = true := by
      intro x hx
      simp only [decide_eq_true_eq]
      intro hx'
      subst hx'
      exact h (by simpa using hx)
    rw [List.takeWhile_eq_self_iff.mpr hall, List.length_reverse, List.length_reverse]

theorem nlMatch_cons_newline {r : List Char} (h : noNLinWS r) :
    nlMatch ('\n' :: r) = some r := by
  have hnl : isPySpace '\n' = true := by decide
  have hw : ('\n' :: r).takeWhile isPySpace = '\n' :: r.takeWhile isPySpace :=
    List.takeWhile_cons_of_pos hnl
  have hall : ∀ x ∈ (r.takeWhile isPySpace).reverse, (fun c => decide (c ≠ '\n')) x = true := by
    intro x hx
    simp only [decide_eq_true_eq]
    intro hx'
    subst hx'
    exact h (by simpa using hx)
  simp only [nlMatch, hw]
  rw [List.reverse_cons, List.takeWhile_append_of_pos hall]
  have hone : (['\n'].takeWhile (fun c => decide (c ≠ '\n'))) = [] := by decide
  rw [hone, List.append_nil, List.reverse_reverse]
  rw [if_neg (by simp)]
  congr 1
  rw [List.length_cons, List.drop_succ_cons, drop_length_takeWhile]
  exact List.takeWhile_append_dropWhile isPySpace r

theorem nlMatch_some_noNLinWS {rest r : List Char} (h : nlMatch rest = some r) :
    noNLinWS r := by
  simp only [nlMatch] at h
  split at h
  · simp at h
  · rw [Option.some.injEq] at h
    subst h
    set w := rest.takeWhile isPySpace with hw
    set v := (w.reverse.takeWhile (fun c => decide (c ≠ '\n'))).reverse with hv
    have hvws : ∀ x ∈ v, isPySpace x = true := by
      intro x hx
      have : x ∈ w.reverse.takeWhile (fun c => decide (c ≠ '\n')) := by
        rw [hv] at hx; simpa using hx
      have hxw : x ∈ w := by
        have := (List.takeWhile_sublist (l := w.reverse)
          (p := fun c => decide (c ≠ '\n'))).mem this
        simpa using this
      exact List.mem_takeWhile_imp hxw
    have hvnnl : '\n' ∉ v := by
      intro hmem
      have : '\n' ∈ w.reverse.takeWhile (fun c => decide (c ≠ '\n')) := by
        rw [hv] at hmem; simpa using hmem
      have := List.mem_takeWhile_imp this
      simp at this
    unfold noNLinWS
    rw [drop_length_takeWhile, List.takeWhile_append_of_pos hvws]
    intro hmem
    rcases List.mem_append.mp hmem with hc | hc
    · exact hvnnl hc
    · rw [takeWhile_dropWhile_nil] at hc
      simp at hc

theorem subNL_nil : subNL [] = [] := by rw [subNL]

theorem subNL_cons_not_nl {c : Char} (rest : List Char) (h : c ≠ '\n') :
    subNL (c :: rest) = c :: subNL rest := by
  rw [subNL]
  simp [h]

theorem subNL_cons_nl_none {rest : List Char} (h : nlMatch rest = none) :
    subNL ('\n' :: rest) = '\n' :: subNL rest := by
  rw [subNL, if_pos rfl]
  split
  · next r2 heq => rw [h] at heq; cases heq
  · rfl

theorem subNL_cons_nl_some {rest r2 : List Char} (h : nlMatch rest = some r2) :
    subNL ('\n' :: rest) = '\n' :: '\n' :: subNL r2 := by
  rw [subNL, if_pos rfl]
  split
  · next r3 heq =>
    rw [h] at heq
    cases heq
    rfl
  · next heq => rw [h] at heq; cases heq

theorem subSp_nil : subSp [] = [] := by rw [subSp]

theorem subSp_cons_space (rest : List Char) :
    subSp (' ' :: rest) = ' ' :: subSp (rest.dropWhile (fun d => d = ' ')) := by
  rw [subSp]
  simp

theorem subSp_cons_not_space {c : Char} (rest : List Char) (h : c ≠ ' ') :
    subSp (c :: rest) = c :: subSp rest := by
  rw [subSp]
  simp [h]

theorem goodNL_append_right {a b : List Char} (h : goodNL (a ++ b)) : goodNL b := by
  induction a with
  | nil => exact h
  | cons c t ih => exact ih h.2

theorem noNLinWS_append_left {a b : List Char} (h : noNLinWS (a ++ b)) : noNLinWS a := by
  unfold noNLinWS at h ⊢
  intro hmem
  apply h
  rw [List.takeWhile_append]
  split
  · next hlen =>
    have : a.takeWhile isPySpace = a :=
      (List.takeWhile_sublist _).eq_of_length hlen
    rw [List.mem_append]
    left
    rw [← this]
    exact hmem
  · exact hmem

theorem nlCond_append_left {a b : List Char} (h : nlCond (a ++ b)) : nlCond a := by
  rcases h with h | ⟨r, hr, hnr⟩
  · exact Or.inl (noNLinWS_append_left h)
  · cases a with
    | nil => exact Or.inl noNLinWS_nil
    | cons c t =>
      rw [List.cons_append] at hr
      injection hr with h1 h2
      subst h1
      refine Or.inr ⟨t, rfl, ?_⟩
      rw [← h2] at hnr
      exact noNLinWS_append_left hnr

theorem goodNL_append_left {a b : List Char} (h : goodNL (a ++ b)) : goodNL a := by
  induction a with
  | nil => trivial
  | cons c t ih =>
    rw [List.cons_append] at h
    exact ⟨fun hc => nlCond_append_left (h.1 hc), ih h.2⟩

theorem goodNL_dropWhile {p : Char → Bool} {l : List Char} (h : goodNL l) :
    goodNL (l.dropWhile p) := by
  induction l with
  | nil => trivial
  | cons c t ih =>
    by_cases hc : p c
    · rw [List.dropWhile_cons_of_pos hc]
      exact ih h.2
    · rw [List.dropWhile_cons_of_neg hc]
      exact h

theorem subNL_append_of_no_nl {a r : List Char} (h : ∀ c ∈ a, c ≠ '\n') :
    subNL (a ++ r) = a ++ subNL r := by
  induction a with
  | nil => rfl
  | cons c t ih =>
    rw [List.cons_append, subNL_cons_not_nl _ (h c (by simp)),
      ih (fun d hd => h d (by simp [hd])), List.cons_append]

theorem noNLinWS_subNL {l : List Char} (h : noNLinWS l) : noNLinWS (subNL l) := by
  unfold noNLinWS at h
  have hws : ∀ c ∈ l.takeWhile isPySpace, isPySpace c = true :=
    fun c hc => List.mem_takeWhile_imp hc
  have hnn : ∀ c ∈ l.takeWhile isPySpace, c ≠ '\n' := by
    intro c hc hc'
    subst hc'
    exact h hc
  have hdecomp : l = l.takeWhile isPySpace ++ l.dropWhile isPySpace :=
    (List.takeWhile_append_dropWhile isPySpace l).symm
  rw [hdecomp, subNL_append_of_no_nl hnn]
  unfold noNLinWS
  cases hd : l.dropWhile isPySpace with
  | nil =>
    rw [subNL_nil, List.append_nil, List.takeWhile_eq_self_iff.mpr hws]
    intro hmem
    exact h hmem
  | cons c t =>
    have hc : isPySpace c = false := dropWhile_head_not hd
    have hcnl : c ≠ '\n' := by
      intro hc'
      subst hc'
      simp [isPySpace] at hc
    rw [subNL_cons_not_nl _ hcnl, List.takeWhile_append_of_pos hws,
      List.takeWhile_cons_of_neg (by simp [hc]), List.append_nil]
    intro hmem
    exact h hmem

theorem goodNL_subNL (l : List Char) : goodNL (subNL l) := by
  induction l using subNL.induct with
  | case1 => rw [subNL_nil]; trivial
  | case2 rest rest2 hm ih =>
    rw [subNL_cons_nl_some hm]
    have hno : noNLinWS (subNL rest2) := noNLinWS_subNL (nlMatch_some_noNLinWS hm)
    refine ⟨fun _ => Or.inr ⟨subNL rest2, rfl, hno⟩, fun _ => Or.inl hno, ih⟩
  | case3 rest hm ih =>
    rw [subNL_cons_nl_none hm]
    have hno : noNLinWS (subNL rest) := noNLinWS_subNL (nlMatch_eq_none_iff.mp hm)
    exact ⟨fun _ => Or.inl hno, ih⟩
  | case4 c rest hc ih =>
    rw [subNL_cons_not_nl _ hc]
    exact ⟨fun h => absurd h hc, ih⟩

theorem subNL_eq_self {l : List Char} (h : goodNL l) : subNL l = l := by
  induction l using subNL.induct with
  | case1 => exact subNL_nil
  | case2 rest rest2 hm ih =>
    rcases h.1 rfl with hno | ⟨r, hr, hnr⟩
    · rw [nlMatch_eq_none_iff.mpr hno] at hm
      cases hm
    · subst hr
      rw [nlMatch_cons_newline hnr] at hm
      cases hm
      rw [subNL_cons_nl_some (nlMatch_cons_newline hnr), ih h.2.2]
  | case3 rest hm ih =>
    rw [subNL_cons_nl_none hm, ih h.2]
  | case4 c rest hc ih =>
    rw [subNL_cons_not_nl _ hc, ih h.2]

theorem noDS_tail {c : Char} {l : List Char} (h : noDS (c :: l)) : noDS l := by
  cases l with
  | nil => trivial
  | cons d t => exact h.2

theorem noDS_cons_of_not_space {c : Char} {l : List Char} (hc : c ≠ ' ') (h : noDS l) :
    noDS (c :: l) := by
  cases l with
  | nil => trivial
  | cons d t => exact ⟨fun hand => hc hand.1, h⟩

theorem noDS_append_left {a b : List Char} (h : noDS (a ++ b)) : noDS a := by
  induction a with
  | nil => trivial
  | cons c t ih =>
    cases t with
    | nil => trivial
    | cons d t2 =>
      rw [List.cons_append, List.cons_append] at h
      exact ⟨h.1, ih h.2⟩

theorem noDS_dropWhile {p : Char → Bool} {l : List Char} (h : noDS l) :
    noDS (l.dropWhile p) := by
  induction l with
  | nil => trivial
  | cons c t ih =>
    by_cases hc : p c
    · rw [List.dropWhile_cons_of_pos hc]
      exact ih (noDS_tail h)
    · rw [List.dropWhile_cons_of_neg hc]
      exact h

theorem subSp_noDS (l : List Char) : noDS (subSp l) := by
  induction l using subSp.induct with
  | case1 => rw [subSp_nil]; trivial
  | case2 rest ih =>
    rw [subSp_cons_space]
    cases hr : rest.dropWhile (fun d => d = ' ') with
    | nil => rw [subSp_nil]; trivial
    | cons d t =>
      have hd : d ≠ ' ' := by
        have := dropWhile_head_not hr
        simpa using this
      rw [subSp_cons_not_space _ hd]
      rw [hr, subSp_cons_not_space _ hd] at ih
      exact ⟨fun hand => hd hand.2, ih⟩
  | case3 c rest hc ih =>
    rw [subSp_cons_not_space _ hc]
    exact noDS_cons_of_not_space hc ih

theorem subSp_eq_self {l : List Char} (h : noDS l) : subSp l = l := by
  induction l using subSp.induct with
  | case1 => exact subSp_nil
  | case2 rest ih =>
    rw [subSp_cons_space]
    cases rest with
    | nil => rw [List.dropWhile_nil, subSp_nil]
    | cons d t =>
      have hd : d ≠ ' ' := fun hd => h.1 ⟨rfl, hd⟩
      have hdrop : (d :: t).dropWhile (fun x => x = ' ') = d :: t :=
        List.dropWhile_cons_of_neg (by simpa using hd)
      rw [hdrop]
      rw [hdrop] at ih
      rw [ih (noDS_tail h)]
  | case3 c rest hc ih =>
    rw [subSp_cons_not_space _ hc, ih (noDS_tail h)]

theorem noNLinWS_subSp {l : List Char} (h : noNLinWS l) : noNLinWS (subSp l) := by
  induction l using subSp.induct with
  | case1 => rw [subSp_nil]; exact noNLinWS_nil
  | case2 rest ih =>
    rw [subSp_cons_space]
    have hsp : isPySpace ' ' = true := by decide
    unfold noNLinWS at h ⊢
    rw [List.takeWhile_cons_of_pos hsp] at h ⊢
    simp only [List.mem_cons, not_or] at h ⊢
    refine ⟨h.1, ?_⟩
    have hrest : '\n' ∉ rest.takeWhile isPySpace := h.2
    have hsplit : rest.takeWhile (fun d => d = ' ') ++ rest.dropWhile (fun d => d = ' ') = rest :=
      List.takeWhile_append_dropWhile _ rest
    have hspaces : ∀ x ∈ rest.takeWhile (fun d => d = ' '), isPySpace x = true := by
      intro x hx
      have := List.mem_takeWhile_imp hx
      simp only [decide_eq_true_eq] at this
      subst this
      decide
    have hrest' : '\n' ∉ (rest.dropWhile (fun d => d = ' ')).takeWhile isPySpace := by
      intro hmem
      apply hrest
      rw [← hsplit, List.takeWhile_append_of_pos hspaces]
      exact List.mem_append.mpr (Or.inr hmem)
    exact ih hrest'
  | case3 c rest hc ih =>
    rw [subSp_cons_not_space _ hc]
    by_cases hcs : isPySpace c
    · unfold noNLinWS at h ⊢
      rw [List.takeWhile_cons_of_pos hcs] at h ⊢
      simp only [List.mem_cons, not_or] at h ⊢
      exact ⟨h.1, ih h.2⟩
    · unfold noNLinWS
      rw [List.takeWhile_cons_of_neg hcs]
      simp

theorem nlCond_subSp {t : List Char} (h : nlCond t) : nlCond (subSp t) := by
  rcases h with h | ⟨r, hr, hnr⟩
  · exact Or.inl (noNLinWS_subSp h)
  · subst hr
    rw [subSp_cons_not_space _ (by decide)]
    exact Or.inr ⟨subSp r, rfl, noNLinWS_subSp hnr⟩

theorem goodNL_subSp {l : List Char} (h : goodNL l) : goodNL (subSp l) := by
  induction l using subSp.induct with
  | case1 => rw [subSp_nil]; trivial
  | case2 rest ih =>
    rw [subSp_cons_space]
    exact ⟨fun habs => absurd habs (by decide), ih (goodNL_dropWhile h.2)⟩
  | case3 c rest hc ih =>
    rw [subSp_cons_not_space _ hc]
    exact ⟨fun hcnl => nlCond_subSp (h.1 hcnl), ih h.2⟩

theorem pyStrip_decomp (l : List Char) :
    pyStrip l ++ ((l.dropWhile isPySpace).reverse.takeWhile isPySpace).reverse =
      l.dropWhile isPySpace := by
  unfold pyStrip
  rw [← List.reverse_append, List.takeWhile_append_dropWhile, List.reverse_reverse]

theorem goodNL_pyStrip {l : List Char} (h : goodNL l) : goodNL (pyStrip l) := by
  have hd : goodNL (l.dropWhile isPySpace) := goodNL_dropWhile h
  rw [← pyStrip_decomp l] at hd
  exact goodNL_append_left hd

theorem noDS_pyStrip {l : List Char} (h : noDS l) : noDS (pyStrip l) := by
  have hd : noDS (l.dropWhile isPySpace) := noDS_dropWhile h
  rw [← pyStrip_decomp l] at hd
  exact noDS_append_left hd

theorem dropWhile_pyStrip (l : List Char) :
    (pyStrip l).dropWhile isPySpace = pyStrip l := by
  cases hs : pyStrip l with
  | nil => rfl
  | cons c t =>
    have hdec := pyStrip_decomp l
    rw [hs, List.cons_append] at hdec
    have := dropWhile_head_not hdec.symm
    exact List.dropWhile_cons_of_neg (by simp [this])

theorem reverse_pyStrip_dropWhile (l : List Char) :
    (pyStrip l).reverse.dropWhile isPySpace = (pyStrip l).reverse := by
  unfold pyStrip
  rw [List.reverse_reverse]
  exact dropWhile_dropWhile _ _

theorem pyStrip_idem (l : List Char) : pyStrip (pyStrip l) = pyStrip l := by
  conv_lhs => rw [pyStrip, dropWhile_pyStrip, reverse_pyStrip_dropWhile, List.reverse_reverse]

/-- **C3.** The text normalizer `clean_text` is idempotent: normalizing
already-normalized text yields the same text unchanged —
`clean_text (clean_text s) = clean_text s` for every string `s`. -/
theorem clean_text_idempotent (s : List Char) :
    clean_text (clean_text s) = clean_text s := by
  have hgood : goodNL (clean_text s) :=
    goodNL_pyStrip (goodNL_subSp (goodNL_subNL s))
  have hds : noDS (clean_text s) :=
    noDS_pyStrip (subSp_noDS (subNL s))
  show pyStrip (subSp (subNL (clean_text s))) = clean_text s
  rw [subNL_eq_self hgood, subSp_eq_self hds]
  exact pyStrip_idem _

theorem countRunsAux_false_dropWhile (rest : List Char) :
    countRunsAux false rest = countRunsAux true (rest.dropWhile (fun d => !isPySpace d)) := by
  induction rest with
  | nil => rfl
  | cons d t ih =>
    by_cases hd : isPySpace d
    · rw [List.dropWhile_cons_of_neg (by simp [hd])]
      simp [countRunsAux, hd]
    · rw [List.dropWhile_cons_of_pos (by simp [hd])]
      simpa [countRunsAux, hd] using ih

theorem pySplit_nil : pySplit [] = [] := by rw [pySplit]

theorem pySplit_cons_ws {c : Char} (rest : List Char) (h : isPySpace c = true) :
    pySplit (c :: rest) = pySplit rest := by
  rw [pySplit]
  simp [h]

theorem pySplit_cons_not_ws {c : Char} (rest : List Char) (h : isPySpace c = false) :
    pySplit (c :: rest) = (c :: rest.takeWhile (fun d => !isPySpace d)) ::
      pySplit (rest.dropWhile (fun d => !isPySpace d)) := by
  rw [pySplit]
  simp [h]

theorem pySplit_length (l : List Char) : (pySplit l).length = countRuns l := by
  unfold countRuns
  induction l using pySplit.induct with
  | case1 => rw [pySplit_nil]; rfl
  | case2 c rest hc ih =>
    rw [pySplit_cons_ws _ hc, ih]
    simp [countRunsAux, hc]
  | case3 c rest hc ih =>
    have hc' : isPySpace c = false := by
      cases h : isPySpace c
      · rfl
      · exact absurd h hc
    rw [pySplit_cons_not_ws _ hc', List.length_cons, ih,
      ← countRunsAux_false_dropWhile]
    simp [countRunsAux, hc']
    omega

/-- **C2.** The classifier is a total pure function on filenames: whenever the
filename contains `impact`, `sustainability` or `esg` (case-insensitively) the
result is `Impact Report` regardless of other rule substrings; otherwise the
first matching rule in the order assurance → proxy → 10k/10-k → carbon
applies; a filename matching no rule yields `Other`. -/
theorem classify_document_type_spec (f : List Char) :
    ((containsCI "impact" f ∨ containsCI "sustainability" f ∨ containsCI "esg" f) →
      classify_document_type f = "Impact Report") ∧
    (¬(containsCI "impact" f ∨ containsCI "sustainability" f ∨ containsCI "esg" f) →
      containsCI "assurance" f → classify_document_type f = "Assurance Statement") ∧
    (¬(containsCI "impact" f ∨ containsCI "sustainability" f ∨ containsCI "esg" f) →
      ¬containsCI "assurance" f → containsCI "proxy" f →
      classify_document_type f = "Proxy Statement") ∧
    (¬(containsCI "impact" f ∨ containsCI "sustainability" f ∨ containsCI "esg" f) →
      ¬containsCI "assurance" f → ¬containsCI "proxy" f →
      (containsCI "10k" f ∨ containsCI "10-k" f) →
      classify_document_type f = "Form 10-K") ∧
    (¬(containsCI "impact" f ∨ containsCI "sustainability" f ∨ containsCI "esg" f) →
      ¬containsCI "assurance" f → ¬containsCI "proxy" f →
      ¬(containsCI "10k" f ∨ containsCI "10-k" f) → containsCI "carbon" f →
      classify_document_type f = "Carbon Disclosure") ∧
    (¬(containsCI "impact" f ∨ containsCI "sustainability" f ∨ containsCI "esg" f) →
      ¬containsCI "assurance" f → ¬containsCI "proxy" f →
      ¬(containsCI "10k" f ∨ containsCI "10-k" f) → ¬containsCI "carbon" f →
      classify_document_type f = "Other") := by
  have h1 : (pyIn "impact".toList (pyLower f) || pyIn "sustainability".toList (pyLower f)
      || pyIn "esg".toList (pyLower f)) = true ↔
      (containsCI "impact" f ∨ containsCI "sustainability" f ∨ containsCI "esg" f) := by
    simp [pyIn, containsCI, or_assoc]
  have h2 : pyIn "assurance".toList (pyLower f) = true ↔ containsCI "assurance" f := by
    simp [pyIn, containsCI]
  have h3 : pyIn "proxy".toList (pyLower f) = true ↔ containsCI "proxy" f := by
    simp [pyIn, containsCI]
  have h4 : (pyIn "10k".toList (pyLower f) || pyIn "10-k".toList (pyLower f)) = true ↔
      (containsCI "10k" f ∨ containsCI "10-k" f) := by
    simp [pyIn, containsCI]
  have h5 : pyIn "carbon".toList (pyLower f) = true ↔ containsCI "carbon" f := by
    simp [pyIn, containsCI]
  refine ⟨?_, ?_, ?_, ?_, ?_, ?_⟩
  · intro ha
    simp only [classify_document_type]
    rw [if_pos (h1.mpr ha)]
  · intro hna ha
    simp only [classify_document_type]
    rw [if_neg (fun hb => hna (h1.mp hb)), if_pos (h2.mpr ha)]
  · intro hna hnb ha
    simp only [classify_document_type]
    rw [if_neg (fun hb => hna (h1.mp hb)), if_neg (fun hb => hnb (h2.mp hb)),
      if_pos (h3.mpr ha)]
  · intro hna hnb hnc ha
    simp only [classify_document_type]
    rw [if_neg (fun hb => hna (h1.mp hb)), if_neg (fun hb => hnb (h2.mp hb)),
      if_neg (fun hb => hnc (h3.mp hb)), if_pos (h4.mpr ha)]
  · intro hna hnb hnc hnd ha
    simp only [classify_document_type]
    rw [if_neg (fun hb => hna (h1.mp hb)), if_neg (fun hb => hnb (h2.mp hb)),
      if_neg (fun hb => hnc (h3.mp hb)), if_neg (fun hb => hnd (h4.mp hb)),
      if_pos (h5.mpr ha)]
  · intro hna hnb hnc hnd hne
    simp only [classify_document_type]
    rw [if_neg (fun hb => hna (h1.mp hb)), if_neg (fun hb => hnb (h2.mp hb)),
      if_neg (fun hb => hnc (h3.mp hb)), if_neg (fun hb => hnd (h4.mp hb)),
      if_neg (fun hb => hne (h5.mp hb))]

/-- Witness for C2: a filename containing both `Impact` and `Assurance`
classifies as `Impact Report` because rule 1 precedes rule 2. -/
theorem classify_document_type_spec_witness :
    classify_document_type "AEO_2020_Impact_Assurance.pdf".toList = "Impact Report" :=
  (classify_document_type_spec "AEO_2020_Impact_Assurance.pdf".toList).1
    (Or.inl (by decide))

theorem runPages_spec (stream : List (Except String (List Char))) (n : Nat)
    (ps : List PageData) (h : runPages stream n = Except.ok ps) :
    ∀ p ∈ ps, p.char_count = p.text.length ∧ p.word_count = countRuns p.text ∧
      ∃ raw, Except.ok raw ∈ stream ∧ p.text = clean_text raw := by
  induction stream generalizing n ps with
  | nil =>
    simp only [runPages] at h
    cases h
    intro p hp
    simp at hp
  | cons page rest ih =>
    cases page with
    | error e => simp [runPages] at h
    | ok raw =>
      simp only [runPages] at h
      cases hrec : runPages rest (n + 1) with
      | error e => rw [hrec] at h; cases h
      | ok ps' =>
        rw [hrec] at h
        cases h
        intro p hp
        rcases List.mem_cons.mp hp with hp | hp
        · subst hp
          refine ⟨rfl, pySplit_length _, raw, by simp, rfl⟩
        · obtain ⟨h1, h2, raw', hraw', h3⟩ := ih (n + 1) ps' hrec p hp
          exact ⟨h1, h2, raw', by simp [hraw'], h3⟩

/-- **C4.** Every page produced by the extractor has its counts computed from
the normalized page text: `char_count` is the length of the normalized text,
`word_count` is the number of maximal non-whitespace runs in the normalized
text, and the page text itself is the normalizer's output on the raw
extracted text of some page of the document (never the raw text itself). -/
theorem extract_counts_from_normalized (stream : PdfStream) (res : ExtractionResult)
    (h : (extract_text_from_pdf stream).result = Except.ok res) :
    ∀ p ∈ res.pages, p.char_count = p.text.length ∧ p.word_count = countRuns p.text ∧
      ∃ raw, Except.ok raw ∈ stream ∧ p.text = clean_text raw := by
  unfold extract_text_from_pdf at h
  cases hrun : runPages stream 1 with
  | error e => rw [hrun] at h; cases h
  | ok ps =>
    rw [hrun] at h
    cases h
    exact runPages_spec stream 1 ps hrun

/-- Witness for C4 at the one-page document whose raw page text is
`"a  b"`: the normalized text is `"a b"`, its length is 3 and it has two
maximal non-whitespace runs. -/
theorem extract_counts_from_normalized_witness :
    (PageData.mk 1 "a b".toList 3 2).char_count = ("a b".toList).length ∧
    (PageData.mk 1 "a b".toList 3 2).word_count = countRuns ("a b".toList) ∧
    ∃ raw, Except.ok raw ∈ ([Except.ok "a  b".toList] : PdfStream) ∧
      ("a b".toList : List Char) = clean_text raw := by
  have hres : (extract_text_from_pdf ([Except.ok "a  b".toList] : PdfStream)).result =
      Except.ok (ExtractionResult.mk 1 [PageData.mk 1 "a b".toList 3 2]) := by
    simp [extract_text_from_pdf, runPages, clean_text, pyStrip, subSp, subNL, nlMatch,
      isPySpace, pySplit, List.dropWhile, List.takeWhile]
  exact extract_counts_from_normalized _ _ hres (PageData.mk 1 "a b".toList 3 2) (by simp)

/-- **C5.** When auto-discovery is enabled and returns an empty sequence, the
run proceeds with the structured-by-year list, and that hardcoded list is
non-empty: ten filenames, two per year over 2020–2024.  Hence such a run
never proceeds with zero documents. -/
theorem locator_fallback_spec :
    selectPdfFiles [] true = define_pdf_files_structure1 ∧
    (∀ env : Env, extract_all_documents env [] true =
      (runDocuments env define_pdf_files_structure1,
       save_outputs (runDocuments env define_pdf_files_structure1))) ∧
    define_pdf_files_structure1.length = 10 ∧
    define_pdf_files_structure1.map (fun i => i.year) =
      [2020, 2020, 2021, 2021, 2022, 2022, 2023, 2023, 2024, 2024] ∧
    define_pdf_files_structure1 ≠ [] := by
  refine ⟨rfl, fun env => rfl, by decide, by decide, by decide⟩

/-- Counterexample to **C6** as stated: for a document whose first page's
text extraction raises, `doc.close()` is never reached — the handle is not
released on that failure exit path. -/
theorem extract_close_counterexample :
    (extract_text_from_pdf ([Except.error "page extraction failed"] : PdfStream)).closed
      = false ∧
    (extract_text_from_pdf ([Except.error "page extraction failed"] : PdfStream)).result
      = Except.error "page extraction failed" :=
  ⟨rfl, rfl⟩

/-- **C6 (amended).** The extractor releases the document handle exactly on
the success path: `doc.close()` runs iff the page loop finishes without an
error, so an extraction error on any page leaves the handle unreleased. -/
theorem extract_close_iff_success (stream : PdfStream) :
    (extract_text_from_pdf stream).closed = (extract_text_from_pdf stream).result.isOk := by
  unfold extract_text_from_pdf
  cases runPages stream 1 <;> rfl

theorem yearPatternAt_succ (c : Char) (t : List Char) (i : Nat) :
    yearPatternAt (c :: t) (i + 1) = yearPatternAt t i := by
  simp [yearPatternAt]

theorem yearValueAt_succ (c : Char) (t : List Char) (i : Nat) :
    yearValueAt (c :: t) (i + 1) = yearValueAt t i := by
  simp [yearValueAt]

theorem yearHere_two_zero (a b : Char) (c : List Char) :
    yearHere ('2' :: '0' :: a :: b :: c) = (isAsciiDigit a && isAsciiDigit b) := by
  simp [yearHere]

theorem yearHere_no_pattern {a : List Char}
    (hno : ∀ (d1 d2 : Char) (tail : List Char), a = '0' :: d1 :: d2 :: tail → False) :
    yearHere ('2' :: a) = false := by
  rcases a with _ | ⟨x, _ | ⟨y, _ | ⟨z, t⟩⟩⟩
  · rfl
  · rfl
  · rfl
  · by_cases hx : x = '0'
    · exact absurd (by rw [hx]) (fun h => hno y z t h)
    · simp [yearHere, hx]

theorem yearHere_not_two {c : Char} {b : List Char} (hc : ¬c = '2') :
    yearHere (c :: b) = false := by
  rcases b with _ | ⟨x, _ | ⟨y, _ | ⟨z, t⟩⟩⟩
  · rfl
  · rfl
  · rfl
  · simp [yearHere, hc]

theorem searchYear_eq_none_iff (path : List Char) :
    searchYear path = none ↔ ∀ i, yearPatternAt path i = false := by
  induction path using searchYear.induct with
  | case1 =>
    constructor
    · intro _ i
      simp [yearPatternAt, yearHere]
    · intro _
      rfl
  | case2 a b c d =>
    constructor
    · intro h
      simp [searchYear, d] at h
    · intro h
      have h0 := h 0
      rw [show yearPatternAt ('2' :: '0' :: a :: b :: c) 0
        = yearHere ('2' :: '0' :: a :: b :: c) from rfl, yearHere_two_zero, d] at h0
      cases h0
  | case3 a b c d ih =>
    have hd : (isAsciiDigit a && isAsciiDigit b) = false := by
      cases h : (isAsciiDigit a && isAsciiDigit b)
      · rfl
      · exact absurd h d
    have hstep : searchYear ('2' :: '0' :: a :: b :: c) = searchYear ('0' :: a :: b :: c) := by
      simp [searchYear, d]
    rw [hstep, ih]
    constructor
    · intro h i
      cases i with
      | zero =>
        rw [show yearPatternAt ('2' :: '0' :: a :: b :: c) 0
          = yearHere ('2' :: '0' :: a :: b :: c) from rfl, yearHere_two_zero, hd]
      | succ i' =>
        rw [yearPatternAt_succ]
        exact h i'
    · intro h i
      have := h (i + 1)
      rw [yearPatternAt_succ] at this
      exact this
  | case4 a hno ih =>
    have hstep : searchYear ('2' :: a) = searchYear a := by
      rw [searchYear.eq_def]
      simp only [if_pos rfl]
      split <;> rfl
    rw [hstep, ih]
    constructor
    · intro h i
      cases i with
      | zero =>
        rw [show yearPatternAt ('2' :: a) 0 = yearHere ('2' :: a) from rfl,
          yearHere_no_pattern hno]
      | succ i' =>
        rw [yearPatternAt_succ]
        exact h i'
    · intro h i
      have := h (i + 1)
      rw [yearPatternAt_succ] at this
      exact this
  | case5 c b hc ih =>
    have hstep : searchYear (c :: b) = searchYear b := by
      rw [searchYear.eq_def]
      simp only []
      rw [if_neg hc]
    rw [hstep, ih]
    constructor
    · intro h i
      cases i with
      | zero =>
        rw [show yearPatternAt (c :: b) 0 = yearHere (c :: b) from rfl, yearHere_not_two hc]
      | succ i' =>
        rw [yearPatternAt_succ]
        exact h i'
    · intro h i
      have := h (i + 1)
      rw [yearPatternAt_succ] at this
      exact this

theorem searchYear_first (path : List Char) (i : Nat)
    (hi : yearPatternAt path i = true)
    (hmin : ∀ j, j < i → yearPatternAt path j = false) :
    searchYear path = some (yearValueAt path i) := by
  induction path using searchYear.induct generalizing i with
  | case1 =>
    rw [show yearPatternAt [] i = yearHere [] by simp [yearPatternAt]] at hi
    cases hi
  | case2 a b c d =>
    cases i with
    | zero =>
      rw [show yearValueAt ('2' :: '0' :: a :: b :: c) 0
        = 2000 + 10 * digitVal a + digitVal b from rfl]
      simp [searchYear, d]
    | succ i' =>
      have h0 := hmin 0 (Nat.succ_pos i')
      rw [show yearPatternAt ('2' :: '0' :: a :: b :: c) 0
        = yearHere ('2' :: '0' :: a :: b :: c) from rfl, yearHere_two_zero, d] at h0
      cases h0
  | case3 a b c d ih =>
    have hd : (isAsciiDigit a && isAsciiDigit b) = false := by
      cases h : (isAsciiDigit a && isAsciiDigit b)
      · rfl
      · exact absurd h d
    cases i with
    | zero =>
      rw [show yearPatternAt ('2' :: '0' :: a :: b :: c) 0
        = yearHere ('2' :: '0' :: a :: b :: c) from rfl, yearHere_two_zero, hd] at hi
      cases hi
    | succ i' =>
      have hstep : searchYear ('2' :: '0' :: a :: b :: c) = searchYear ('0' :: a :: b :: c) := by
        simp [searchYear, d]
      rw [hstep, yearValueAt_succ]
      apply ih
      · rw [← yearPatternAt_succ ('2', '0' :: a :: b :: c).1]
        exact hi
      · intro j hj
        have := hmin (j + 1) (Nat.succ_lt_succ hj)
        rw [yearPatternAt_succ] at this
        exact this
  | case4 a hno ih =>
    cases i with
    | zero =>
      rw [show yearPatternAt ('2' :: a) 0 = yearHere ('2' :: a) from rfl,
        yearHere_no_pattern hno] at hi
      cases hi
    | succ i' =>
      have hstep : searchYear ('2' :: a) = searchYear a := by
        rw [searchYear.eq_def]
        simp only [if_pos rfl]
        split <;> rfl
      rw [hstep, yearValueAt_succ]
      apply ih
      · rw [← yearPatternAt_succ '2' a i']
        exact hi
      · intro j hj
        have := hmin (j + 1) (Nat.succ_lt_succ hj)
        rw [yearPatternAt_succ] at this
        exact this
  | case5 c b hc ih =>
    cases i with
    | zero =>
      rw [show yearPatternAt (c :: b) 0 = yearHere (c :: b) from rfl,
        yearHere_not_two hc] at hi
      cases hi
    | succ i' =>
      have hstep : searchYear (c :: b) = searchYear b := by
        rw [searchYear.eq_def]
        simp only []
        rw [if_neg hc]
      rw [hstep, yearValueAt_succ]
      apply ih
      · rw [← yearPatternAt_succ c b i']
        exact hi
      · intro j hj
        have := hmin (j + 1) (Nat.succ_lt_succ hj)
        rw [yearPatternAt_succ] at this
        exact this

/-- **C8.** For every path accepted by auto-discovery, the derived year is
given by the first occurrence of the pattern `20\d\d` in the path (the value
of those four characters); when no such occurrence exists the year defaults
to 2024. -/
theorem auto_discover_year_spec (tree : List (List Char)) (info : PdfInfo)
    (hmem : info ∈ auto_discover_pdfs tree) :
    ((∀ i, yearPatternAt info.path i = false) → info.year = 2024) ∧
    (∀ i, yearPatternAt info.path i = true →
      (∀ j, j < i → yearPatternAt info.path j = false) →
      info.year = yearValueAt info.path i) := by
  have hshape : info.year = deriveYear info.path := by
    unfold auto_discover_pdfs at hmem
    rw [List.mem_filterMap] at hmem
    obtain ⟨path, _, hpath⟩ := hmem
    by_cases hc : ".pdf".toList.isSuffixOf (pyLower path) = true
    · rw [if_pos hc] at hpath
      cases hpath
      rfl
    · rw [if_neg hc] at hpath
      cases hpath
  rw [hshape]
  constructor
  · intro hnone
    unfold deriveYear
    rw [(searchYear_eq_none_iff info.path).mpr hnone]
    rfl
  · intro i hi hmin
    unfold deriveYear
    rw [searchYear_first info.path i hi hmin]
    rfl

/-- Witness for C8: the single accepted path `AEO_2021/file.pdf` has its
first (and only) `20\d\d` occurrence at position 4, so the derived year
is 2021. -/
theorem auto_discover_year_spec_witness :
    ({ year := 2021, filename := "file.pdf".toList, path := "AEO_2021/file.pdf".toList,
       doc_type := "Other" } : PdfInfo).year =
      yearValueAt ("AEO_2021/file.pdf".toList) 4 :=
  (auto_discover_year_spec ["AEO_2021/file.pdf".toList]
    { year := 2021, filename := "file.pdf".toList, path := "AEO_2021/file.pdf".toList,
      doc_type := "Other" } (by decide)).2 4 (by decide)
    (by decide)

theorem removePdf_nil : removePdf [] = [] := by rw [removePdf]

theorem removePdf_cons_match {rest : List Char} (h : rest.take 3 = ['p', 'd', 'f']) :
    removePdf ('.' :: rest) = removePdf (rest.drop 3) := by
  rw [removePdf, if_pos ⟨rfl, h⟩]

theorem removePdf_cons_no {c : Char} {rest : List Char}
    (h : ¬(c = '.' ∧ rest.take 3 = ['p', 'd', 'f'])) :
    removePdf (c :: rest) = c :: removePdf rest := by
  rw [removePdf, if_neg h]

theorem removePdf_append_pdfExt {a : List Char}
    (h : ¬List.IsInfix ".pdf".toList a) :
    removePdf (a ++ ".pdf".toList) = a := by
  induction a with
  | nil =>
    rw [List.nil_append,
      show (".pdf".toList : List Char) = '.' :: ['p', 'd', 'f'] from rfl,
      removePdf_cons_match (by decide)]
    exact removePdf_nil
  | cons c a' ih =>
    have hnm : ¬(c = '.' ∧ (a' ++ ".pdf".toList).take 3 = ['p', 'd', 'f']) := by
      rintro ⟨hc, htake⟩
      subst hc
      rcases a' with _ | ⟨x, _ | ⟨y, _ | ⟨z, t⟩⟩⟩
      · simp at htake
      · simp [List.take] at htake
      · simp [List.take] at htake
      · simp [List.take] at htake
        obtain ⟨hx, hy, hz⟩ := htake
        subst hx; subst hy; subst hz
        exact h ⟨[], t, rfl⟩
    rw [List.cons_append, removePdf_cons_no hnm,
      ih (fun hin => h (List.infix_cons hin))]

/-- Counterexample to **C9** as stated: the code removes every occurrence of
the lowercase substring `.pdf`, not just the trailing extension.  On the
filename `report.pdf.pdf` the code produces stem `report`, while stripping
only the extension would produce `report_pdf`. -/
theorem save_text_corpus_filename_counterexample :
    save_text_corpus_filename 2020 "report.pdf.pdf".toList ≠
      (toString 2020).toList ++ '_' :: claimedStem "report.pdf.pdf".toList
        ++ "_fulltext.txt".toList := by
  have h1 : removePdf "report.pdf.pdf".toList = "report".toList := by
    simp [removePdf]
  intro h
  rw [save_text_corpus_filename, safe_filename, h1] at h
  revert h
  decide

/-- **C9 (amended).** The corpus file name is
`<year>_<stem>_fulltext.txt` where the stem removes every occurrence of the
lowercase substring `.pdf` and replaces every character outside
`[A-Za-z0-9_-]` with `_`.  When the filename ends in `.pdf` and contains no
other occurrence of `.pdf`, this coincides with the claim's
"extension stripped" description; in particular
`AEO 2020: Report (final).pdf` yields the stem `AEO_2020__Report__final_`. -/
theorem save_text_corpus_filename_spec (year : Nat) (filename : List Char)
    (hsuf : List.IsSuffix ".pdf".toList filename)
    (honce : ¬List.IsInfix ".pdf".toList (filename.take (filename.length - 4))) :
    save_text_corpus_filename year filename =
      (toString year).toList ++ '_' :: claimedStem filename ++ "_fulltext.txt".toList := by
  obtain ⟨a, ha⟩ := hsuf
  subst ha
  have hlen : (a ++ ".pdf".toList).length - 4 = a.length := by
    simp
  have htake : (a ++ ".pdf".toList).take ((a ++ ".pdf".toList).length - 4) = a := by
    rw [hlen]
    exact List.take_left a _
  rw [htake] at honce
  rw [save_text_corpus_filename, safe_filename, removePdf_append_pdfExt honce,
    claimedStem, if_pos (List.isSuffixOf_iff_suffix.mpr ⟨a, rfl⟩), htake]

/-- Witness for the amended C9: the spec's own example filename. -/
theorem save_text_corpus_filename_spec_witness :
    save_text_corpus_filename 2020 "AEO 2020: Report (final).pdf".toList =
      "2020_AEO_2020__Report__final__fulltext.txt".toList := by
  have h := save_text_corpus_filename_spec 2020 "AEO 2020: Report (final).pdf".toList
    (by decide) (by decide)
  rw [h]
  decide

theorem processDoc_fetch_error {env : Env} {info : PdfInfo} {e : String}
    (hfetch : env.fetch info.path = Except.error e) (s : RunState) :
    processDoc env s info = s := by
  unfold processDoc
  rw [hfetch]

/-- **C1.** If fetching one document fails, that document contributes no
dataset rows and no metadata entry, and every other document of the list is
still processed: the run over a list containing the failing document ends in
exactly the state of the run over the list with that document removed. -/
theorem fetch_failure_skips_document (env : Env) (pre post : List PdfInfo)
    (info : PdfInfo) (e : String)
    (hfetch : env.fetch info.path = Except.error e) :
    runDocuments env (pre ++ info :: post) = runDocuments env (pre ++ post) := by
  unfold runDocuments
  rw [List.foldl_append, List.foldl_append, List.foldl_cons,
    processDoc_fetch_error hfetch]

/-- Witness for C1: with a one-element list whose only fetch fails, the run
ends in the same (empty) state as the run over the empty list. -/
theorem fetch_failure_skips_document_witness :
    runDocuments envFetchFail ([] ++ sampleInfo :: []) = runDocuments envFetchFail ([] ++ []) :=
  fetch_failure_skips_document envFetchFail [] [] sampleInfo "ConnectionError" rfl

/-- Counterexample to **C7** as stated: the metadata record is appended
*before* the corpus-file write, so a document whose corpus-file write fails
(here: every write returns a disk error) still leaves its metadata record in
the accumulator, even though its per-document step failed after the append
and its dataset rows were never added. -/
theorem metadata_atomicity_counterexample :
    (∀ info res, envWriteFail.writeCorpus info res = Except.error "disk full") ∧
    (processDoc envWriteFail { extracted_data := [], document_metadata := [] }
        sampleInfo).document_metadata ≠ [] ∧
    (processDoc envWriteFail { extracted_data := [], document_metadata := [] }
        sampleInfo).extracted_data = [] := by
  refine ⟨fun _ _ => rfl, ?_, ?_⟩
  · have hres : (extract_text_from_pdf [Except.ok "Hello".toList]).result =
        Except.ok (ExtractionResult.mk 1 [PageData.mk 1 "Hello".toList 5 1]) := by
      simp [extract_text_from_pdf, runPages, clean_text, pyStrip, subSp, subNL, nlMatch,
        isPySpace, pySplit, List.dropWhile, List.takeWhile]
    unfold processDoc envWriteFail
    simp only [hres]
    simp
  · have hres : (extract_text_from_pdf [Except.ok "Hello".toList]).result =
        Except.ok (ExtractionResult.mk 1 [PageData.mk 1 "Hello".toList 5 1]) := by
      simp [extract_text_from_pdf, runPages, clean_text, pyStrip, subSp, subNL, nlMatch,
        isPySpace, pySplit, List.dropWhile, List.takeWhile]
    unfold processDoc envWriteFail
    simp only [hres]

/-- **C7 (amended).** The metadata accumulator is unchanged by a document
whose fetch or extraction fails; but for every document whose fetch and
extraction succeed, the metadata record is appended no matter whether the
subsequent corpus-file write or dataset-row accumulation succeeds (the
append happens before the write, so per-document atomicity holds only up to
the extraction step). -/
theorem metadata_append_spec (env : Env) (s : RunState) (info : PdfInfo) :
    (∀ e, env.fetch info.path = Except.error e → processDoc env s info = s) ∧
    (∀ stream e, env.fetch info.path = Except.ok stream →
      (extract_text_from_pdf stream).result = Except.error e →
      processDoc env s info = s) ∧
    (∀ stream res, env.fetch info.path = Except.ok stream →
      (extract_text_from_pdf stream).result = Except.ok res →
      (processDoc env s info).document_metadata =
        s.document_metadata ++ [mkMetadata info res]) := by
  refine ⟨?_, ?_, ?_⟩
  · intro e he
    unfold processDoc
    rw [he]
  · intro stream e hs hext
    unfold processDoc
    rw [hs]
    dsimp only
    rw [hext]
  · intro stream res hs hext
    unfold processDoc
    rw [hs]
    dsimp only
    rw [hext]
    dsimp only
    cases env.writeCorpus info res <;> rfl

/-- Witness for the amended C7: in the write-failure environment the
metadata record of the sample document is appended. -/
theorem metadata_append_spec_witness :
    (processDoc envWriteFail { extracted_data := [], document_metadata := [] }
        sampleInfo).document_metadata =
      [] ++ [mkMetadata sampleInfo (ExtractionResult.mk 1 [PageData.mk 1 "Hello".toList 5 1])] := by
  have hres : (extract_text_from_pdf [Except.ok "Hello".toList]).result =
      Except.ok (ExtractionResult.mk 1 [PageData.mk 1 "Hello".toList 5 1]) := by
    simp [extract_text_from_pdf, runPages, clean_text, pyStrip, subSp, subNL, nlMatch,
      isPySpace, pySplit, List.dropWhile, List.takeWhile]
  exact (metadata_append_spec envWriteFail { extracted_data := [], document_metadata := [] }
    sampleInfo).2.2 [Except.ok "Hello".toList]
    (ExtractionResult.mk 1 [PageData.mk 1 "Hello".toList 5 1]) rfl hres

/-- **C10.** A run in which every fetch fails processes no document
successfully: both run-scoped accumulators end up empty, and the final
aggregation then fails while writing the summary report, because the `year`
column does not exist on the data frame built from the empty metadata list —
so such a run does not produce a complete set of output files. -/
theorem zero_success_run_fails (env : Env) (autoResult : List PdfInfo) (b : Bool)
    (hfail : ∀ p, ∃ e, env.fetch p = Except.error e) :
    (∀ s : RunState, s.extracted_data = [] → s.document_metadata = [] →
      save_outputs s = Except.error "KeyError: year") ∧
    (extract_all_documents env autoResult b).1 =
      { extracted_data := [], document_metadata := [] } ∧
    (extract_all_documents env autoResult b).2 = Except.error "KeyError: year" := by
  refine ⟨?_, ?_⟩
  · intro s _ h2
    unfold save_outputs create_summary_report
    rw [h2]
    rfl
  have hrun : ∀ files s, List.foldl (processDoc env) s files = s := by
    intro files
    induction files with
    | nil => intro s; rfl
    | cons info rest ih =>
      intro s
      rw [List.foldl_cons]
      obtain ⟨e, he⟩ := hfail info.path
      rw [processDoc_fetch_error he, ih s]
  have hstate : (extract_all_documents env autoResult b).1 =
      { extracted_data := [], document_metadata := [] } := by
    unfold extract_all_documents runDocuments
    exact hrun _ _
  refine ⟨hstate, ?_⟩
  show save_outputs (runDocuments env (selectPdfFiles autoResult b)) = _
  have : runDocuments env (selectPdfFiles autoResult b) =
      { extracted_data := [], document_metadata := [] } := hstate
  rw [this]
  rfl

/-- Witness for C10: the all-fetches-fail environment over the default
orchestration (auto-discovery enabled, empty discovery result). -/
theorem zero_success_run_fails_witness :
    (extract_all_documents envFetchFail [] true).1 =
      { extracted_data := [], document_metadata := [] } ∧
    (extract_all_documents envFetchFail [] true).2 = Except.error "KeyError: year" :=
  (zero_success_run_fails envFetchFail [] true (fun p => ⟨"ConnectionError", rfl⟩)).2
